import Mathlib

/-!
Verification of the session-dashboard backend (`backend/server.js`).

The development shallowly embeds the core pipeline of the server:
the JSONL record decoder (`parseJsonlFile`), the session aggregator
(`extractSessionInfo`), the content formatter (`formatEntryContent`),
the directory scanner (`getAllSessions`), the detail lookup
(`getSessionDetails`) and the stats endpoint (`/api/stats`).

Modelling conventions:
- JSON values are the inductive `Json` below.  A distinct `undefined`
  constructor models the JavaScript `undefined` produced by reading an
  absent property; `null` models JSON null.  Property access on
  `null`/`undefined` throws in JavaScript, which the embedding models
  with `Except Unit`; every other JavaScript expression the server
  evaluates on decoded data is total.
- Numbers are modelled as integers: every numeric field the server
  aggregates is a token count.  Fractional literals are outside the
  model (the decoder treats them as unparseable lines), and a non-number
  where the server expects a token count contributes 0 (in JavaScript
  such data would poison the sum with `NaN`/string concatenation; no
  claim depends on that corner).
- String lengths and `substring` counts are in characters, which agrees
  with JavaScript's UTF-16 code-unit counts on ASCII data.
- JavaScript `===` on strings/numbers/booleans is structural equality,
  which is what the embedding uses; object identity is not modelled.
-/


inductive Json where
  | undefined : Json
  | null : Json
  | bool : Bool → Json
  | num : Int → Json
  | str : String → Json
  | arr : List Json → Json
  | obj : List (String × Json) → Json
deriving Repr

mutual

/-- Structural equality test on `Json` (matches JavaScript `===` and
`Array.prototype.includes` on primitives, the only values compared by
the server). -/
def jsonEqb : Json → Json → Bool
  | .undefined, .undefined => true
  | .null, .null => true
  | .bool a, .bool b => a = b
  | .num a, .num b => a = b
  | .str a, .str b => a = b
  | .arr xs, .arr ys => jsonEqbList xs ys
  | .obj fs, .obj gs => jsonEqbFields fs gs
  | _, _ => false

def jsonEqbList : List Json → List Json → Bool
  | [], [] => true
  | x :: xs, y :: ys => jsonEqb x y && jsonEqbList xs ys
  | _, _ => false

def jsonEqbFields : List (String × Json) → List (String × Json) → Bool
  | [], [] => true
  | (k, v) :: fs, (k', v') :: gs => k = k' && jsonEqb v v' && jsonEqbFields fs gs
  | _, _ => false

end

namespace Json

/-- JavaScript truthiness of a value (`undefined`, `null`, `false`, `0`
and `""` are falsy; every object and array is truthy). -/
def truthy : Json → Bool
  | .undefined => false
  | .null => false
  | .bool b => b
  | .num n => n != 0
  | .str s => s != ""
  | .arr _ => true
  | .obj _ => true

def isNullish : Json → Bool
  | .undefined => true
  | .null => true
  | _ => false

def isArr : Json → Bool
  | .arr _ => true
  | _ => false

/-- Association-list lookup used for object property access. -/
def lookupField : List (String × Json) → String → Json
  | [], _ => .undefined
  | (k, v) :: fs, key => if k = key then v else lookupField fs key

/-- Total property read `j[key]`: objects yield the stored value or
`undefined`; primitives and arrays yield `undefined` (none of the
accessed keys is an own property of a JS primitive wrapper or array). -/
def getT (j : Json) (key : String) : Json :=
  match j with
  | .obj fs => lookupField fs key
  | _ => .undefined

/-- Throwing property read `j.key`: JavaScript raises a `TypeError`
when reading a property of `null`/`undefined`. -/
def getE (j : Json) (key : String) : Except Unit Json :=
  match j with
  | .undefined => .error ()
  | .null => .error ()
  | _ => .ok (getT j key)

/-- Optional-chaining read `j?.key` (never throws). -/
def getC (j : Json) (key : String) : Json :=
  match j with
  | .undefined => .undefined
  | .null => .undefined
  | _ => getT j key

/-- `j === "s"` for a string literal. -/
def isStrEq (j : Json) (s : String) : Bool :=
  match j with
  | .str t => t = s
  | _ => false

end Json

/-- JavaScript `a || b`. -/
def jsOr (a b : Json) : Json := if a.truthy then a else b

/-- JavaScript `a || b` on strings (truthy iff non-empty). -/
def strOr (a b : String) : String := if a = "" then b else a

/-- `x || 0` followed by numeric accumulation: a numeric field
contributes its value, anything else contributes 0. -/
def numOrZero : Json → Int
  | .num n => n
  | _ => 0

/-- JavaScript `s.substring(0, n)`. -/
def jsSubstring (s : String) (n : Nat) : String := ⟨s.data.take n⟩

/-- A whitespace character of JavaScript `String.prototype.trim`
(ASCII part). -/
def jsWsChar (c : Char) : Bool :=
  c = ' ' || c = '\x09' || c = '\x0a' || c = '\x0d' || c = '\x0b' || c = '\x0c'

/-- JavaScript `s.trim()`. -/
def jsTrim (s : String) : String :=
  ⟨((s.data.dropWhile jsWsChar).reverse.dropWhile jsWsChar).reverse⟩

def splitLinesAux : List Char → List Char → List String
  | [], cur => [⟨cur.reverse⟩]
  | c :: cs, cur =>
    if c = '\x0a' then ⟨cur.reverse⟩ :: splitLinesAux cs []
    else splitLinesAux cs (c :: cur)

/-- JavaScript `s.split('\n')`. -/
def jsSplitNl (s : String) : List String := splitLinesAux s.data []

def stripFirstAux (pat : List Char) : List Char → List Char
  | [] => []
  | c :: cs =>
    if pat.isPrefixOf (c :: cs) then (c :: cs).drop pat.length
    else c :: stripFirstAux pat cs

/-- Remove the first occurrence of the non-empty `pat` from `s`
(JavaScript `s.replace(pat, "")` with a string pattern). -/
def replaceFirst (s pat : String) : String := ⟨stripFirstAux pat.data s.data⟩

/-- JavaScript `s.endsWith(pat)`. -/
def jsEndsWith (s pat : String) : Bool := pat.data.isSuffixOf s.data

mutual

/-- JavaScript `String(v)` / template-literal conversion. -/
def jsToString : Json → String
  | .undefined => "undefined"
  | .null => "null"
  | .bool true => "true"
  | .bool false => "false"
  | .num n => toString n
  | .str s => s
  | .arr xs => String.intercalate "," (jsToStringElems xs)
  | .obj _ => "[object Object]"

/-- Elements of `Array.prototype.toString`/`join`: `null` and
`undefined` render as the empty string. -/
def jsToStringElems : List Json → List String
  | [] => []
  | x :: xs =>
    (match x with
     | .undefined => ""
     | .null => ""
     | v => jsToString v) :: jsToStringElems xs

end

/-- JavaScript `Array.prototype.join(sep)` over the model. -/
def jsJoin (sep : String) (xs : List Json) : String :=
  String.intercalate sep (jsToStringElems xs)

/-- One escaped character of a JSON string literal. -/
def escapeChar (c : Char) : String :=
  if c = '"' then "\\\""
  else if c = '\\' then "\\\\"
  else if c = '\x0a' then "\\n"
  else if c = '\x0d' then "\\r"
  else if c = '\x09' then "\\t"
  else if c = '\x08' then "\\b"
  else if c = '\x0c' then "\\f"
  else if c.val < 32 then
    "\\u00" ++ String.mk [(Nat.digitChar (c.val.toNat / 16)), (Nat.digitChar (c.val.toNat % 16))]
  else String.mk [c]

def quoteString (s : String) : String :=
  "\"" ++ String.join (s.data.map escapeChar) ++ "\""

mutual

/-- JavaScript `JSON.stringify(v)` (compact form); `none` models the
`undefined` result for an `undefined` argument. -/
def jsonStringify : Json → Option String
  | .undefined => none
  | .null => some "null"
  | .bool true => some "true"
  | .bool false => some "false"
  | .num n => some (toString n)
  | .str s => some (quoteString s)
  | .arr xs => some ("[" ++ String.intercalate "," (jsonStringifyElems xs) ++ "]")
  | .obj fs => some ("\x7b" ++ String.intercalate "," (jsonStringifyFields fs) ++ "\x7d")

/-- Array elements: an `undefined` element serializes as `null`. -/
def jsonStringifyElems : List Json → List String
  | [] => []
  | x :: xs =>
    (match jsonStringify x with
     | some s => s
     | none => "null") :: jsonStringifyElems xs

/-- Object fields: a property whose value serializes to `undefined` is
skipped. -/
def jsonStringifyFields : List (String × Json) → List String
  | [] => []
  | (k, v) :: fs =>
    match jsonStringify v with
    | some s => (quoteString k ++ ":" ++ s) :: jsonStringifyFields fs
    | none => jsonStringifyFields fs

end

/-- `JSON.stringify(v)` at a call site where `v` is known truthy
(hence never `undefined`). -/
def jsonStrD (v : Json) : String := (jsonStringify v).getD "undefined"

mutual

/-- JavaScript `JSON.stringify(v, null, 2)` (two-space indentation);
`none` models the `undefined` result for an `undefined` argument. -/
def jsonPretty (ind : String) : Json → Option String
  | .undefined => none
  | .null => some "null"
  | .bool true => some "true"
  | .bool false => some "false"
  | .num n => some (toString n)
  | .str s => some (quoteString s)
  | .arr [] => some "[]"
  | .arr (x :: xs) =>
    some ("[\x0a" ++ String.intercalate ",\x0a" (jsonPrettyElems (ind ++ "  ") (x :: xs))
      ++ "\x0a" ++ ind ++ "]")
  | .obj fs =>
    match jsonPrettyFields (ind ++ "  ") fs with
    | [] => some "\x7b\x7d"
    | ls => some ("\x7b\x0a" ++ String.intercalate ",\x0a" ls ++ "\x0a" ++ ind ++ "\x7d")

def jsonPrettyElems (ind : String) : List Json → List String
  | [] => []
  | x :: xs =>
    (ind ++ (match jsonPretty ind x with
             | some s => s
             | none => "null")) :: jsonPrettyElems ind xs

def jsonPrettyFields (ind : String) : List (String × Json) → List String
  | [] => []
  | (k, v) :: fs =>
    match jsonPretty ind v with
    | some s => (ind ++ quoteString k ++ ": " ++ s) :: jsonPrettyFields ind fs
    | none => jsonPrettyFields ind fs

end

/-- `JSON.stringify(v, null, 2)` where `v` is known truthy. -/
def jsonPrettyD (v : Json) : String := (jsonPretty "" v).getD "undefined"

/-! ### A JSON text reader modelling `JSON.parse`

Fuel-indexed recursive-descent reading of one JSON value.  Numbers are
restricted to (optionally signed) integer literals, matching the
integer-valued number model; duplicate object keys keep the first
position and the last value, as `JSON.parse` does. -/

def jsonWs (c : Char) : Bool := c = ' ' || c = '\x09' || c = '\x0a' || c = '\x0d'

def skipWs : List Char → List Char
  | [] => []
  | c :: cs => if jsonWs c then skipWs cs else c :: cs

def hexVal (c : Char) : Option Nat :=
  if '0' ≤ c ∧ c ≤ '9' then some (c.toNat - '0'.toNat)
  else if 'a' ≤ c ∧ c ≤ 'f' then some (c.toNat - 'a'.toNat + 10)
  else if 'A' ≤ c ∧ c ≤ 'F' then some (c.toNat - 'A'.toNat + 10)
  else none

/-- Read the body of a string literal after the opening quote. -/
def readStringBody : Nat → List Char → Option (String × List Char)
  | 0, _ => none
  | _, [] => none
  | fuel + 1, c :: cs =>
    if c = '"' then some ("", cs)
    else if c = '\\' then
      match cs with
      | [] => none
      | e :: cs' =>
        let esc : Option (Char × List Char) :=
          if e = '"' then some ('"', cs')
          else if e = '\\' then some ('\\', cs')
          else if e = '/' then some ('/', cs')
          else if e = 'b' then some ('\x08', cs')
          else if e = 'f' then some ('\x0c', cs')
          else if e = 'n' then some ('\x0a', cs')
          else if e = 'r' then some ('\x0d', cs')
          else if e = 't' then some ('\x09', cs')
          else if e = 'u' then
            match cs' with
            | h1 :: h2 :: h3 :: h4 :: cs'' =>
              match hexVal h1, hexVal h2, hexVal h3, hexVal h4 with
              | some a, some b, some c3, some d =>
                let n := ((a * 16 + b) * 16 + c3) * 16 + d
                -- surrogate code points are outside the `Char` model
                if n.isValidChar then some (Char.ofNat n, cs'') else none
              | _, _, _, _ => none
            | _ => none
          else none
        match esc with
        | none => none
        | some (ch, rest) =>
          match readStringBody fuel rest with
          | some (s, rest') => some (String.mk (ch :: s.data), rest')
          | none => none
    else if c.val < 32 then none
    else
      match readStringBody fuel cs with
      | some (s, rest) => some (String.mk (c :: s.data), rest)
      | none => none

def isDigitChar (c : Char) : Bool := '0' ≤ c && c ≤ '9'

def readDigits : Nat → List Char → Nat → (Nat × List Char)
  | 0, cs, acc => (acc, cs)
  | fuel + 1, cs, acc =>
    match cs with
    | c :: cs' =>
      if isDigitChar c then readDigits fuel cs' (acc * 10 + (c.toNat - '0'.toNat))
      else (acc, cs)
    | [] => (acc, [])

/-- Read an unsigned JSON integer literal (no leading zeros). -/
def readNat : List Char → Option (Nat × List Char)
  | [] => none
  | c :: cs =>
    if c = '0' then
      -- a leading zero must be the whole integer part
      match cs with
      | c' :: _ => if isDigitChar c' then none else some (0, cs)
      | [] => some (0, [])
    else if isDigitChar c then
      some (readDigits (cs.length + 1) (c :: cs) 0)
    else none

def removeField : List (String × Json) → String → List (String × Json)
  | [], _ => []
  | (k', v') :: fs, k => if k' = k then removeField fs k else (k', v') :: removeField fs k

/-- Prepend a parsed object member to the members parsed after it: a
duplicate key keeps its first position but takes the last value, as in
`JSON.parse`. -/
def consMember (k : String) (v : Json) (rest : List (String × Json)) :
    List (String × Json) :=
  if rest.any (fun p => p.1 == k) then
    (k, Json.lookupField rest k) :: removeField rest k
  else (k, v) :: rest

mutual

def readVal : Nat → List Char → Option (Json × List Char)
  | 0, _ => none
  | fuel + 1, cs =>
    match skipWs cs with
    | 'n' :: 'u' :: 'l' :: 'l' :: rest => some (.null, rest)
    | 't' :: 'r' :: 'u' :: 'e' :: rest => some (.bool true, rest)
    | 'f' :: 'a' :: 'l' :: 's' :: 'e' :: rest => some (.bool false, rest)
    | '"' :: rest =>
      match readStringBody (rest.length + 1) rest with
      | some (s, rest') => some (.str s, rest')
      | none => none
    | '[' :: rest =>
      (match skipWs rest with
       | ']' :: rest' => some (.arr [], rest')
       | _ => match readElems fuel (skipWs rest) with
              | some (xs, rest') => some (.arr xs, rest')
              | none => none)
    | '\x7b' :: rest =>
      (match skipWs rest with
       | '\x7d' :: rest' => some (.obj [], rest')
       | _ => match readMembers fuel (skipWs rest) with
              | some (fs, rest') => some (.obj fs, rest')
              | none => none)
    | '-' :: rest =>
      (match readNat rest with
       | some (n, rest') => some (.num (-(n : Int)), rest')
       | none => none)
    | cs' =>
      match readNat cs' with
      | some (n, rest') => some (.num (n : Int), rest')
      | none => none

def readElems : Nat → List Char → Option (List Json × List Char)
  | 0, _ => none
  | fuel + 1, cs =>
    match readVal fuel cs with
    | none => none
    | some (v, rest) =>
      match skipWs rest with
      | ',' :: rest' =>
        (match readElems fuel rest' with
         | some (xs, rest'') => some (v :: xs, rest'')
         | none => none)
      | ']' :: rest' => some ([v], rest')
      | _ => none

def readMembers : Nat → List Char → Option (List (String × Json) × List Char)
  | 0, _ => none
  | fuel + 1, cs =>
    match skipWs cs with
    | '"' :: rest =>
      (match readStringBody (rest.length + 1) rest with
       | none => none
       | some (k, rest') =>
         match skipWs rest' with
         | ':' :: rest'' =>
           (match readVal fuel rest'' with
            | none => none
            | some (v, rest3) =>
              match skipWs rest3 with
              | ',' :: rest4 =>
                (match readMembers fuel rest4 with
                 | some (fs, rest5) => some (consMember k v fs, rest5)
                 | none => none)
              | '\x7d' :: rest4 => some ([(k, v)], rest4)
              | _ => none)
         | _ => none)
    | _ => none

end

/-- `JSON.parse(s)`: a whole-input read of one JSON value. -/
def Json.parse (s : String) : Option Json :=
  match readVal (s.length + 1) s.data with
  | some (v, rest) => if skipWs rest = [] then some v else none
  | none => none

/-! ### Record Decoder (`parseJsonlFile`, core text-to-records part)

The filesystem wrapper of the source function (missing file or read
error yields `[]`) lives at the call sites of the scanner model below;
this is the decoding of one file's text. -/

/-- `parseJsonlFile`: trim the content, split on newline, drop lines
blank after trimming, `JSON.parse` each line with a per-line catch that
yields `null`, and keep only truthy results (`.filter(Boolean)`). -/
def parseJsonl (content : String) : List Json :=
  let lines := (jsSplitNl (jsTrim content)).filter (fun line => jsTrim line ≠ "")
  (lines.map (fun line =>
    match Json.parse line with
    | some v => v
    | none => Json.null)).filter Json.truthy

/-! ### Effectful list combinators

JavaScript loops propagate a thrown exception immediately; these
combinators are the corresponding `Except`-valued traversals. -/

def exMap (f : α → Except Unit β) : List α → Except Unit (List β)
  | [] => .ok []
  | a :: as =>
    match f a with
    | .error e => .error e
    | .ok b =>
      match exMap f as with
      | .error e => .error e
      | .ok bs => .ok (b :: bs)

def exFilter (p : α → Except Unit Bool) : List α → Except Unit (List α)
  | [] => .ok []
  | a :: as =>
    match p a with
    | .error e => .error e
    | .ok b =>
      match exFilter p as with
      | .error e => .error e
      | .ok rest => .ok (if b then a :: rest else rest)

def exFoldl (f : β → α → Except Unit β) : β → List α → Except Unit β
  | b, [] => .ok b
  | b, a :: as =>
    match f b a with
    | .error e => .error e
    | .ok b' => exFoldl f b' as

/-! ### Session Aggregator (`extractSessionInfo`)

One forward pass over the decoded records.  The local mutable variables
of the source function form the fold state `AggState`; each sub-step
below is one statement group of the loop body, in source order. -/

structure AggState where
  totalInputTokens : Int
  totalOutputTokens : Int
  messageCount : Nat
  toolUses : List Json
  firstUserMessage : String
  summary : String
  model : Json
deriving Repr

def initAgg : AggState :=
  { totalInputTokens := 0
    totalOutputTokens := 0
    messageCount := 0
    toolUses := []
    firstUserMessage := ""
    summary := ""
    model := .str "" }

/-- `const usage = entry.usage || entry.message?.usage` followed by the
token accumulation (input, output, and both cache counts folded into
input). -/
def stepTokens (st : AggState) (entry : Json) : Except Unit AggState :=
  match entry.getE "usage" with
  | .error e => .error e
  | .ok u =>
    let usage := jsOr u ((entry.getT "message").getC "usage")
    .ok (if usage.truthy then
      { st with
        totalInputTokens := st.totalInputTokens + numOrZero (usage.getT "input_tokens")
          + numOrZero (usage.getT "cache_creation_input_tokens")
          + numOrZero (usage.getT "cache_read_input_tokens")
        totalOutputTokens := st.totalOutputTokens + numOrZero (usage.getT "output_tokens") }
    else st)

/-- Message counting for records of type `user` or `assistant`. -/
def stepCount (st : AggState) (entry : Json) : AggState :=
  if (entry.getT "type").isStrEq "user" || (entry.getT "type").isStrEq "assistant" then
    { st with messageCount := st.messageCount + 1 }
  else st

/-- The first-user-message text of a truthy `entry.message`: a string
message is used directly; otherwise a truthy string `content` is used,
an array `content` is filtered to `text`-typed blocks (each contributing
`c.text || ''`) and joined with one space, any other truthy `content`
is stringified, and an absent/falsy `content` stringifies the message. -/
def userMsgText (message : Json) : Except Unit String :=
  match message with
  | .str s => .ok s
  | _ =>
    let content := message.getT "content"
    if content.truthy then
      match content with
      | .str s => .ok s
      | .arr cs =>
        (match exFilter (fun c =>
            match c.getE "type" with
            | .error e => .error e
            | .ok t => .ok (t.isStrEq "text")) cs with
         | .error e => .error e
         | .ok tcs => .ok (jsJoin " " (tcs.map (fun c => jsOr (c.getT "text") (.str "")))))
      | _ => .ok (jsonStrD content)
    else .ok (jsonStrD message)

/-- Capture of the first user message: only while `firstUserMessage` is
still empty, and only from a record of type `user` with a truthy
`message`; the text is truncated to 200 characters. -/
def stepFirstUser (st : AggState) (entry : Json) : Except Unit AggState :=
  if (entry.getT "type").isStrEq "user" && st.firstUserMessage == ""
      && (entry.getT "message").truthy then
    match userMsgText (entry.getT "message") with
    | .error e => .error e
    | .ok t => .ok { st with firstUserMessage := jsSubstring t 200 }
  else .ok st

/-- The summary text of a truthy `entry.summary`: the string itself, a
truthy nested `content` (string or stringified), else the stringified
summary value. -/
def summaryTextOf (s : Json) : String :=
  match s with
  | .str text => text
  | _ =>
    let c := s.getT "content"
    if c.truthy then
      match c with
      | .str cs => cs
      | _ => jsonStrD c
    else jsonStrD s

/-- Summary capture: every record of type `summary` with a truthy
`summary` field overwrites the held value. -/
def stepSummary (st : AggState) (entry : Json) : AggState :=
  if (entry.getT "type").isStrEq "summary" && (entry.getT "summary").truthy then
    { st with summary := summaryTextOf (entry.getT "summary") }
  else st

/-- `toolUses.includes(name) ? toolUses : toolUses.push(name)`
(`includes` compares with SameValueZero, structural on the primitive
names compared here). -/
def insertNew (l : List Json) (n : Json) : List Json :=
  if l.any (fun x => jsonEqb x n) then l else l ++ [n]

/-- Tool-name tracking: a record of type `tool_use` or with a truthy
`tool` field contributes `tool || name || 'unknown'`; an `assistant`
record with array `message?.content` additionally contributes the
`name` of every block of type `tool_use` with a truthy `name`.  Each
contribution is appended only if not already present. -/
def stepTools (st : AggState) (entry : Json) : Except Unit AggState :=
  let tu :=
    if (entry.getT "type").isStrEq "tool_use" || (entry.getT "tool").truthy then
      insertNew st.toolUses
        (jsOr (jsOr (entry.getT "tool") (entry.getT "name")) (.str "unknown"))
    else st.toolUses
  let mcontent := (entry.getT "message").getC "content"
  if (entry.getT "type").isStrEq "assistant" && mcontent.isArr then
    match mcontent with
    | .arr blocks =>
      (match exFoldl (fun acc block =>
          match block.getE "type" with
          | .error e => .error e
          | .ok bt =>
            .ok (if bt.isStrEq "tool_use" && (block.getT "name").truthy then
                   insertNew acc (block.getT "name")
                 else acc)) tu blocks with
       | .error e => .error e
       | .ok tu' => .ok { st with toolUses := tu' })
    | _ => .ok { st with toolUses := tu }
  else .ok { st with toolUses := tu }

/-- Model capture: only while `model` is still falsy,
`entry.model || entry.message?.model || ''`. -/
def stepModel (st : AggState) (entry : Json) : AggState :=
  if st.model.truthy then st
  else { st with
    model := jsOr (jsOr (entry.getT "model") ((entry.getT "message").getC "model")) (.str "") }

/-- One iteration of the aggregation loop, in source statement order. -/
def extractStep (st : AggState) (entry : Json) : Except Unit AggState :=
  match stepTokens st entry with
  | .error e => .error e
  | .ok st1 =>
    match stepFirstUser (stepCount st1 entry) entry with
    | .error e => .error e
    | .ok st3 =>
      match stepTools (stepSummary st3 entry) entry with
      | .error e => .error e
      | .ok st5 => .ok (stepModel st5 entry)

def extractLoop (entries : List Json) : Except Unit AggState :=
  exFoldl extractStep initAgg entries

/-- `decodeProjectName`: replace every hyphen with a path separator. -/
def decodeProjectName (encoded : String) : String :=
  ⟨encoded.data.map (fun c => if c = '-' then '/' else c)⟩

structure SessionInfo where
  id : String
  project : String
  projectRaw : String
  summary : String
  messageCount : Nat
  totalInputTokens : Int
  totalOutputTokens : Int
  totalTokens : Int
  toolUses : List Json
  model : Json
  entryCount : Nat
deriving Repr

/-- The object literal returned by `extractSessionInfo`. -/
def finalizeInfo (st : AggState) (project filename : String) (entryCount : Nat) :
    SessionInfo :=
  { id := replaceFirst filename ".jsonl"
    project := decodeProjectName project
    projectRaw := project
    summary := strOr st.summary (strOr st.firstUserMessage "No summary")
    messageCount := st.messageCount
    totalInputTokens := st.totalInputTokens
    totalOutputTokens := st.totalOutputTokens
    totalTokens := st.totalInputTokens + st.totalOutputTokens
    toolUses := st.toolUses
    model := st.model
    entryCount := entryCount }

/-- `extractSessionInfo(entries, project, filename)`. -/
def extractSessionInfo (entries : List Json) (project filename : String) :
    Except Unit SessionInfo :=
  match extractLoop entries with
  | .error e => .error e
  | .ok st => .ok (finalizeInfo st project filename entries.length)

/-! ### Content Formatter (`formatEntryContent`)

A formatted entry is either a string or (for user tool results) a
structured object, hence the `Json` result; `Except` models the
`TypeError`s JavaScript raises on `null` elements inside content
arrays, on a truthy non-string `thinking` field, and on a `tool_use`
block without an `input` field. -/

/-- `extractToolResultContent(content)`: string passthrough; an array
maps each element to its truthy `text` field, itself when a string, or
its stringification, joined by newline; anything else is stringified. -/
def extractToolResultContent (content : Json) : Except Unit Json :=
  match content with
  | .str s => .ok (.str s)
  | .arr cs =>
    (match exMap (fun c =>
        match c.getE "type" with
        | .error e => .error e
        | .ok t =>
          if t.isStrEq "text" && (c.getT "text").truthy then .ok (c.getT "text")
          else match c with
            | .str s => .ok (Json.str s)
            | _ => .ok (Json.str (jsonStrD c))) cs with
     | .error e => .error e
     | .ok parts => .ok (.str (jsJoin "\x0a" parts)))
  | _ => .ok ((jsonStringify content).elim Json.undefined Json.str)

/-- The text-block extraction shared by the two user-content paths:
`content.map(c => text-block text, else a string element, else null)`
then `.filter(Boolean)`. -/
def userTexts (cs : List Json) : Except Unit (List Json) :=
  match exMap (fun c =>
      match c.getE "type" with
      | .error e => .error e
      | .ok t =>
        if t.isStrEq "text" && (c.getT "text").truthy then .ok (c.getT "text")
        else match c with
          | .str s => .ok (Json.str s)
          | _ => .ok Json.null) cs with
  | .error e => .error e
  | .ok texts => .ok (texts.filter Json.truthy)

/-- The `entry.message?.content` block of the user branch; `none`
means control falls through to the next fallback. -/
def userFromMessageContent (mc : Json) : Except Unit (Option Json) :=
  if mc.truthy then
    match mc with
    | .str s => .ok (some (.str s))
    | .arr cs =>
      (match exFilter (fun c =>
          match c.getE "type" with
          | .error e => .error e
          | .ok t => .ok (t.isStrEq "tool_result")) cs with
       | .error e => .error e
       | .ok toolResults =>
         if toolResults.length > 0 then
           (match exMap (fun tr =>
               match extractToolResultContent (tr.getT "content") with
               | .error e => .error e
               | .ok c => .ok (Json.obj [("tool_use_id", tr.getT "tool_use_id"),
                                         ("content", c)])) toolResults with
           | .error e => .error e
           | .ok results =>
             .ok (some (.obj [("type", .str "tool_results"), ("results", .arr results)])))
         else
           (match userTexts cs with
           | .error e => .error e
           | .ok texts =>
             .ok (if texts.length > 0 then some (.str (jsJoin "\x0a" texts)) else none)))
    | _ => .ok none
  else .ok none

/-- The `entry.content` fallback of the user branch. -/
def userFromContent (c : Json) : Except Unit (Option Json) :=
  if c.truthy then
    match c with
    | .str s => .ok (some (.str s))
    | .arr cs =>
      (match userTexts cs with
       | .error e => .error e
       | .ok texts =>
         .ok (if texts.length > 0 then some (.str (jsJoin "\x0a" texts)) else none))
    | _ => .ok none
  else .ok none

def formatUser (entry : Json) : Except Unit Json :=
  match entry.getT "message" with
  | .str s => .ok (.str s)
  | message =>
    match userFromMessageContent (message.getC "content") with
    | .error e => .error e
    | .ok (some v) => .ok v
    | .ok none =>
      match userFromContent (entry.getT "content") with
      | .error e => .error e
      | .ok (some v) => .ok v
      | .ok none =>
        if message.truthy then .ok (.str (jsonPrettyD message))
        else .ok (.str (jsonPrettyD entry))

/-- The per-block rendering of the assistant branch: text blocks pass
their text, thinking blocks a labeled 500-character excerpt, tool_use
blocks a labeled name with a 300-character pretty-printed input. -/
def assistantParts : List Json → Except Unit (List Json)
  | [] => .ok []
  | b :: bs =>
    match b.getE "type" with
    | .error e => .error e
    | .ok bt =>
      let hd : Except Unit (Option Json) :=
        if bt.isStrEq "text" && (b.getT "text").truthy then .ok (some (b.getT "text"))
        else if bt.isStrEq "thinking" && (b.getT "thinking").truthy then
          match b.getT "thinking" with
          | .str s => .ok (some (.str ("💭 Thinking:\x0a" ++ jsSubstring s 500 ++ "...")))
          | _ => .error ()
        else if bt.isStrEq "tool_use" then
          match jsonPretty "" (b.getT "input") with
          | none => .error ()
          | some ps =>
            .ok (some (.str ("🔧 Tool: " ++ jsToString (b.getT "name")
              ++ "\x0aInput: " ++ jsSubstring ps 300)))
        else .ok none
      match hd with
      | .error e => .error e
      | .ok o =>
        match assistantParts bs with
        | .error e => .error e
        | .ok rest => .ok (match o with | some v => v :: rest | none => rest)

def formatAssistant (entry : Json) : Except Unit Json :=
  match entry.getT "message" with
  | .str s => .ok (.str s)
  | message =>
    let mc := message.getC "content"
    let viaMessage : Except Unit (Option Json) :=
      if mc.truthy then
        match mc with
        | .str s => .ok (some (.str s))
        | .arr blocks =>
          (match assistantParts blocks with
           | .error e => .error e
           | .ok parts => .ok (some (.str (strOr (jsJoin "\x0a\x0a" parts) "[Processing...]"))))
        | _ => .ok none
      else .ok none
    match viaMessage with
    | .error e => .error e
    | .ok (some v) => .ok v
    | .ok none =>
      let c := entry.getT "content"
      let viaContent : Except Unit (Option Json) :=
        if c.truthy then
          match c with
          | .str s => .ok (some (.str s))
          | .arr cs =>
            (match exFilter (fun x =>
                match x.getE "type" with
                | .error e => .error e
                | .ok t => .ok (t.isStrEq "text")) cs with
             | .error e => .error e
             | .ok tcs =>
               let texts := tcs.map (fun x => jsOr (x.getT "text") (.str ""))
               .ok (some (.str (strOr (jsJoin "\x0a" texts) "[Response]"))))
          | _ => .ok none
        else .ok none
      match viaContent with
      | .error e => .error e
      | .ok (some v) => .ok v
      | .ok none =>
        if message.truthy then .ok (.str (jsonPrettyD message))
        else .ok (.str "[Empty response]")

def formatToolUse (entry : Json) : Json :=
  let toolName := jsOr (jsOr (entry.getT "name") (entry.getT "tool")) (.str "unknown")
  let input := jsOr (jsOr (entry.getT "input") (entry.getT "arguments")) (.obj [])
  .str ("🔧 Tool: " ++ jsToString toolName ++ "\x0aInput: "
    ++ jsSubstring (jsonPrettyD input) 500)

def formatToolResult (entry : Json) : Json :=
  let result := jsOr (jsOr (jsOr (entry.getT "result") (entry.getT "output"))
    (entry.getT "content")) (.str "")
  let resultStr := match result with
    | .str s => s
    | r => jsonStrD r
  .str ("📤 Result: " ++ jsSubstring resultStr 500
    ++ (if resultStr.length > 500 then "..." else ""))

/-- `formatEntryContent(entry)`: dispatch on `entry.type`. -/
def formatEntryContent (entry : Json) : Except Unit Json :=
  match entry.getE "type" with
  | .error e => .error e
  | .ok ty =>
    if ty.isStrEq "user" then formatUser entry
    else if ty.isStrEq "assistant" then formatAssistant entry
    else if ty.isStrEq "tool_use" then .ok (formatToolUse entry)
    else if ty.isStrEq "tool_result" then .ok (formatToolResult entry)
    else if ty.isStrEq "summary" then
      .ok (.str ("📝 Summary: " ++ jsToString (jsOr (entry.getT "summary") (.str ""))))
    else
      .ok (.str ("ℹ️ " ++ jsToString (jsOr ty (.str "unknown")) ++ ": "
        ++ jsSubstring (jsonPrettyD entry) 300))

/-! ### Directory Scanner and Query Gateway

The filesystem is modelled as an optional root listing (`none` = the
configured directory does not exist) of entries, each either a plain
file or a project directory holding session files.  A file present in
the model is readable; the source's read-failure catch (which yields an
empty record list) therefore has no model counterpart. -/

structure FsFile where
  name : String
  content : String
  mtime : Int
  size : Int
deriving Repr

inductive FsEntry where
  | file : FsFile → FsEntry
  | dir : String → List FsFile → FsEntry
deriving Repr

/-- A Session Summary with the fields the scanner attaches. -/
structure SessionFull extends SessionInfo where
  filePath : String
  lastModified : Int
  fileSize : Int
deriving Repr

/-- Stable insertion for the descending sort by `lastModified`
(`sessions.sort((a, b) => new Date(b.lastModified) - new Date(a.lastModified))`). -/
def insertByMtime (x : SessionFull) : List SessionFull → List SessionFull
  | [] => [x]
  | y :: ys =>
    if y.lastModified ≤ x.lastModified then x :: y :: ys
    else y :: insertByMtime x ys

def sortSessions (l : List SessionFull) : List SessionFull :=
  l.foldr insertByMtime []

def sessionOfFile (claudeDir projName : String) (f : FsFile) : Except Unit SessionFull :=
  match extractSessionInfo (parseJsonl f.content) projName f.name with
  | .error e => .error e
  | .ok info =>
    .ok { toSessionInfo := info
          filePath := claudeDir ++ "/" ++ projName ++ "/" ++ f.name
          lastModified := f.mtime
          fileSize := f.size }

def filesStep (claudeDir projName : String) (acc : List SessionFull) (f : FsFile) :
    Except Unit (List SessionFull) :=
  if jsEndsWith f.name ".jsonl" then
    match sessionOfFile claudeDir projName f with
    | .error e => .error e
    | .ok s => .ok (acc ++ [s])
  else .ok acc

def dirStep (claudeDir : String) (acc : List SessionFull) (ent : FsEntry) :
    Except Unit (List SessionFull) :=
  match ent with
  | .file _ => .ok acc
  | .dir name files => exFoldl (filesStep claudeDir name) acc files

/-- `getAllSessions()`: a missing root yields `[]`; otherwise every
`.jsonl` file of every first-level project directory is decoded and
aggregated, and the summaries are sorted by `lastModified` descending. -/
def getAllSessions (claudeDir : String) (root : Option (List FsEntry)) :
    Except Unit (List SessionFull) :=
  match root with
  | none => .ok []
  | some entries =>
    match exFoldl (dirStep claudeDir) [] entries with
    | .error e => .error e
    | .ok sessions => .ok (sortSessions sessions)

/-- Resolution of `path.join(CLAUDE_DIR, projectRaw, sessionId + ".jsonl")`
against the modelled tree. -/
def findFile (root : Option (List FsEntry)) (dirName fileName : String) :
    Option String :=
  match root with
  | none => none
  | some entries =>
    entries.findSome? fun ent =>
      match ent with
      | .file _ => none
      | .dir n files =>
        if n = dirName then
          files.findSome? (fun f => if f.name = fileName then some f.content else none)
        else none

structure DisplayMessage where
  index : Nat
  type : Json
  timestamp : Json
  content : Json
  raw : Json
deriving Repr

structure SessionDetail where
  sessionId : String
  project : String
  messages : List DisplayMessage
  stats : SessionInfo
deriving Repr

/-- `getSessionDetails(projectRaw, sessionId)`: `none` inside `.ok` is
the explicit not-found result for a missing file. -/
def getSessionDetails (root : Option (List FsEntry)) (projectRaw sessionId : String) :
    Except Unit (Option SessionDetail) :=
  match findFile root projectRaw (sessionId ++ ".jsonl") with
  | none => .ok none
  | some content =>
    let entries := parseJsonl content
    match exMap (fun (p : Nat × Json) =>
        match formatEntryContent p.2 with
        | .error e => .error e
        | .ok c => .ok { index := p.1
                         type := jsOr (p.2.getT "type") (.str "unknown")
                         timestamp := jsOr (p.2.getT "timestamp") (p.2.getT "ts")
                         content := c
                         raw := p.2 : DisplayMessage }) entries.enum with
    | .error e => .error e
    | .ok messages =>
      match extractSessionInfo entries projectRaw (sessionId ++ ".jsonl") with
      | .error e => .error e
      | .ok stats =>
        .ok (some { sessionId := sessionId
                    project := decodeProjectName projectRaw
                    messages := messages
                    stats := stats })

/-- Histogram bump `m[key] = (m[key] || 0) + 1` on an insertion-ordered
association list (JS object with string keys). -/
def bumpCount (m : List (String × Int)) (key : String) : List (String × Int) :=
  if m.any (fun p => p.1 == key) then
    m.map (fun p => if p.1 = key then (p.1, p.2 + 1) else p)
  else m ++ [(key, 1)]

structure StatsAgg where
  totalSessions : Nat
  totalTokens : Int
  totalInputTokens : Int
  totalOutputTokens : Int
  totalMessages : Nat
  toolUsage : List (String × Int)
  modelUsage : List (String × Int)
deriving Repr

/-- The `/api/stats` handler over the scanned sessions. -/
def apiStats (claudeDir : String) (root : Option (List FsEntry)) :
    Except Unit StatsAgg :=
  match getAllSessions claudeDir root with
  | .error e => .error e
  | .ok sessions =>
    .ok { totalSessions := sessions.length
          totalTokens := sessions.foldl (fun sum s => sum + s.totalTokens) 0
          totalInputTokens := sessions.foldl (fun sum s => sum + s.totalInputTokens) 0
          totalOutputTokens := sessions.foldl (fun sum s => sum + s.totalOutputTokens) 0
          totalMessages := sessions.foldl (fun sum s => sum + s.messageCount) 0
          toolUsage := sessions.foldl
            (fun m s => s.toolUses.foldl (fun m tool => bumpCount m (jsToString tool)) m) []
          modelUsage := sessions.foldl
            (fun m s => if s.model.truthy then bumpCount m (jsToString s.model) else m) [] }

/-- The token-sum invariant of a Session Summary. -/
def tokenInv (s : SessionFull) : Prop :=
  s.totalTokens = s.totalInputTokens + s.totalOutputTokens

def c1entry : Json :=
  .obj [("usage", .obj [("input_tokens", .num 2), ("output_tokens", .num 3)])]

def c1info : SessionInfo :=
  { id := "f"
    project := "p"
    projectRaw := "p"
    summary := "No summary"
    messageCount := 0
    totalInputTokens := 2
    totalOutputTokens := 3
    totalTokens := 5
    toolUses := []
    model := .str ""
    entryCount := 1 }

def c1stats : StatsAgg :=
  { totalSessions := 0
    totalTokens := 0
    totalInputTokens := 0
    totalOutputTokens := 0
    totalMessages := 0
    toolUsage := []
    modelUsage := [] }

/-- The decoder as the amended claim states it: the records of the
non-blank lines that parse to a truthy value, in original line order
(a valid line whose value is `null`, `false`, `0` or `""` is dropped). -/
def specDecodedRecords (content : String) : List Json :=
  ((jsSplitNl (jsTrim content)).filter (fun l => jsTrim l ≠ "")).filterMap
    (fun l => (Json.parse l).bind (fun v => if v.truthy then some v else none))

/-! ### Concrete inputs and spec-side statements for the claim theorems -/

def toolResultRecord (s : String) : Json :=
  .obj [("type", .str "tool_result"), ("result", .str s)]

def c7res600 : String := ⟨List.replicate 600 'a'⟩

def c7res400 : String := ⟨List.replicate 400 'b'⟩

/-- The formatter is not total: a decoded record can hold `null` inside
a content array, and the block-scanning property reads then throw a
`TypeError` (`c.type` of `null`).  This record comes from a
syntactically valid log line. -/
def c4record : Json :=
  .obj [("type", .str "user"), ("message", .obj [("content", .arr [Json.null])])]

/-- `entry.usage || entry.message?.usage`, the usage object one
aggregation step reads. -/
def usageOf (e : Json) : Json :=
  jsOr (e.getT "usage") ((e.getT "message").getC "usage")

/-- The input-token contribution of a usage value: plain input tokens
with both cache counts folded in; a falsy usage contributes nothing. -/
def usageInputTokens (u : Json) : Int :=
  if u.truthy then
    numOrZero (u.getT "input_tokens") + numOrZero (u.getT "cache_creation_input_tokens")
      + numOrZero (u.getT "cache_read_input_tokens")
  else 0

def usageOutputTokens (u : Json) : Int :=
  if u.truthy then numOrZero (u.getT "output_tokens") else 0

def c3record : Json :=
  .obj [("usage", .obj [("input_tokens", .num 3), ("cache_creation_input_tokens", .num 4),
                        ("cache_read_input_tokens", .num 5), ("output_tokens", .num 6)]),
        ("message", .obj [("usage", .obj [("input_tokens", .num 100),
                                          ("output_tokens", .num 200)])])]

def c3state : AggState :=
  { totalInputTokens := 12
    totalOutputTokens := 6
    messageCount := 0
    toolUses := []
    firstUserMessage := ""
    summary := ""
    model := .str "" }

def c5userHello : Json := .obj [("type", .str "user"), ("message", .str "hello")]

def c5summaryS : Json := .obj [("type", .str "summary"), ("summary", .str "S")]

def c5state : AggState :=
  { totalInputTokens := 0
    totalOutputTokens := 0
    messageCount := 1
    toolUses := []
    firstUserMessage := "hello"
    summary := "S"
    model := .str "" }

def c5info : SessionInfo :=
  { id := "f"
    project := "p"
    projectRaw := "p"
    summary := "S"
    messageCount := 1
    totalInputTokens := 0
    totalOutputTokens := 0
    totalTokens := 0
    toolUses := []
    model := .str ""
    entryCount := 2 }

/-- The summary text the amended reading predicts: the value derived
from the last record of type `summary` whose `summary` field is truthy,
the empty string when there is none. -/
def specLastSummary (entries : List Json) : String :=
  entries.foldl (fun acc e =>
    if (e.getT "type").isStrEq "summary" && (e.getT "summary").truthy
    then summaryTextOf (e.getT "summary") else acc) ""

def c10entries : List Json :=
  [.obj [("type", .str "summary"), ("summary", .str "A")],
   .obj [("type", .str "summary")],
   .obj [("type", .str "summary"), ("summary", .str "")],
   .obj [("type", .str "summary"), ("summary", .str "B")],
   .obj [("type", .str "summary"), ("summary", .str "")]]

def c10state : AggState :=
  { totalInputTokens := 0
    totalOutputTokens := 0
    messageCount := 0
    toolUses := []
    firstUserMessage := ""
    summary := "B"
    model := .str "" }

/-- The `tool_use` block names contributed by an assistant content
array, in block order. -/
def blockToolNames : List Json → Except Unit (List Json)
  | [] => .ok []
  | b :: bs =>
    match b.getE "type" with
    | .error er => .error er
    | .ok bt =>
      match blockToolNames bs with
      | .error er => .error er
      | .ok rest =>
        .ok (if bt.isStrEq "tool_use" && (b.getT "name").truthy
             then b.getT "name" :: rest else rest)

/-- The tool names one record contributes, in contribution order. -/
def entryToolNames (e : Json) : Except Unit (List Json) :=
  let base : List Json :=
    if (e.getT "type").isStrEq "tool_use" || (e.getT "tool").truthy then
      [jsOr (jsOr (e.getT "tool") (e.getT "name")) (.str "unknown")]
    else []
  if (e.getT "type").isStrEq "assistant" && ((e.getT "message").getC "content").isArr then
    match (e.getT "message").getC "content" with
    | .arr blocks =>
      (match blockToolNames blocks with
       | .error er => .error er
       | .ok bns => .ok (base ++ bns))
    | _ => .ok base
  else .ok base

/-- The tool names a record sequence contributes, in order. -/
def allToolNames : List Json → Except Unit (List Json)
  | [] => .ok []
  | e :: es =>
    match entryToolNames e with
    | .error er => .error er
    | .ok ns =>
      match allToolNames es with
      | .error er => .error er
      | .ok rest => .ok (ns ++ rest)

/-- First-occurrence deduplication, the spec's description of the tool
list. -/
def dedupFirstSeen (ns : List Json) : List Json := ns.foldl insertNew []

def c6toolRec (n : String) : Json := .obj [("type", .str "tool_use"), ("tool", .str n)]

def c6entries : List Json :=
  [c6toolRec "grep", c6toolRec "read", c6toolRec "grep", c6toolRec "write"]

def c6state : AggState :=
  { totalInputTokens := 0
    totalOutputTokens := 0
    messageCount := 0
    toolUses := [.str "grep", .str "read", .str "write"]
    firstUserMessage := ""
    summary := ""
    model := .str "" }

def c9user1 : Json := .obj [("type", .str "user"), ("message", .obj [("content", .arr [])])]

def c9user2 : Json := .obj [("type", .str "user"), ("message", .str "hi")]

/-- The first user message as the amended claim states it: the first
record of type `user` with a truthy `message` whose formatted text
(truncated to 200 characters) is non-empty supplies the value; user
records with an absent or falsy `message`, or whose text is empty,
leave it unset for a later user record. -/
def specFirstUserMessage : List Json → Except Unit String
  | [] => .ok ""
  | e :: es =>
    if (e.getT "type").isStrEq "user" && (e.getT "message").truthy then
      match userMsgText (e.getT "message") with
      | .error er => .error er
      | .ok t =>
        if jsSubstring t 200 = "" then specFirstUserMessage es
        else .ok (jsSubstring t 200)
    else specFirstUserMessage es

def c9state : AggState :=
  { totalInputTokens := 0
    totalOutputTokens := 0
    messageCount := 2
    toolUses := []
    firstUserMessage := "hi"
    summary := ""
    model := .str "" }

/-! ## Theorems -/

mutual

theorem jsonEqb_iff : ∀ a b : Json, jsonEqb a b = true ↔ a = b
  | .undefined, b => by cases b <;> simp [jsonEqb]
  | .null, b => by cases b <;> simp [jsonEqb]
  | .bool a, b => by cases b <;> simp [jsonEqb]
  | .num a, b => by cases b <;> simp [jsonEqb]
  | .str a, b => by cases b <;> simp [jsonEqb]
  | .arr xs, b => by
    cases b <;> simp [jsonEqb]
    exact jsonEqbList_iff xs _
  | .obj fs, b => by
    cases b <;> simp [jsonEqb]
    exact jsonEqbFields_iff fs _

theorem jsonEqbList_iff : ∀ xs ys : List Json, jsonEqbList xs ys = true ↔ xs = ys
  | [], ys => by cases ys <;> simp [jsonEqbList]
  | x :: xs, ys => by
    cases ys with
    | nil => simp [jsonEqbList]
    | cons y ys =>
      simp only [jsonEqbList, Bool.and_eq_true, List.cons.injEq]
      rw [jsonEqb_iff, jsonEqbList_iff]

theorem jsonEqbFields_iff :
    ∀ fs gs : List (String × Json), jsonEqbFields fs gs = true ↔ fs = gs
  | [], gs => by cases gs <;> simp [jsonEqbFields]
  | (k, v) :: fs, gs => by
    cases gs with
    | nil => simp [jsonEqbFields]
    | cons g gs =>
      obtain ⟨k', v'⟩ := g
      simp only [jsonEqbFields, Bool.and_eq_true, List.cons.injEq, Prod.mk.injEq,
        decide_eq_true_eq]
      rw [jsonEqb_iff, jsonEqbFields_iff]

end

/-! ### Supporting lemmas -/

theorem exFoldl_invariant {α β : Type} (P : β → Prop) (f : β → α → Except Unit β)
    (hf : ∀ b a b', f b a = .ok b' → P b → P b') :
    ∀ (l : List α) (b b' : β), exFoldl f b l = .ok b' → P b → P b'
  | [], b, b', h, hb => by
    simp only [exFoldl] at h
    cases h
    exact hb
  | a :: as, b, b', h, hb => by
    simp only [exFoldl] at h
    cases hfa : f b a with
    | error e => rw [hfa] at h; cases h
    | ok b1 =>
      rw [hfa] at h
      exact exFoldl_invariant P f hf as b1 b' h (hf b a b1 hfa hb)

theorem insertByMtime_mem (a x : SessionFull) :
    ∀ l : List SessionFull, a ∈ insertByMtime x l ↔ a = x ∨ a ∈ l
  | [] => by simp [insertByMtime]
  | y :: ys => by
    simp only [insertByMtime]
    split
    · simp
    · rw [List.mem_cons, insertByMtime_mem a x ys, List.mem_cons]
      tauto

theorem sortSessions_mem (a : SessionFull) :
    ∀ l : List SessionFull, a ∈ sortSessions l ↔ a ∈ l := by
  have aux : ∀ (l : List SessionFull) (acc : List SessionFull),
      a ∈ l.foldr insertByMtime acc ↔ a ∈ l ∨ a ∈ acc := by
    intro l
    induction l with
    | nil => simp
    | cons x xs ih =>
      intro acc
      simp only [List.foldr_cons, insertByMtime_mem, ih, List.mem_cons]
      tauto
  intro l
  unfold sortSessions
  rw [aux]
  simp

/-- Every `.ok` result of `stepTokens` has the same non-token fields as
its input. -/
theorem stepTokens_preserves (st st' : AggState) (e : Json)
    (h : stepTokens st e = .ok st') :
    st'.messageCount = st.messageCount ∧ st'.toolUses = st.toolUses ∧
    st'.firstUserMessage = st.firstUserMessage ∧ st'.summary = st.summary ∧
    st'.model = st.model := by
  unfold stepTokens at h
  cases hu : e.getE "usage" with
  | error err => rw [hu] at h; cases h
  | ok u =>
    rw [hu] at h
    cases h
    split <;> simp

theorem stepCount_preserves (st : AggState) (e : Json) :
    (stepCount st e).totalInputTokens = st.totalInputTokens ∧
    (stepCount st e).totalOutputTokens = st.totalOutputTokens ∧
    (stepCount st e).toolUses = st.toolUses ∧
    (stepCount st e).firstUserMessage = st.firstUserMessage ∧
    (stepCount st e).summary = st.summary ∧
    (stepCount st e).model = st.model := by
  unfold stepCount
  split <;> simp

theorem stepFirstUser_preserves (st st' : AggState) (e : Json)
    (h : stepFirstUser st e = .ok st') :
    st'.totalInputTokens = st.totalInputTokens ∧
    st'.totalOutputTokens = st.totalOutputTokens ∧
    st'.messageCount = st.messageCount ∧ st'.toolUses = st.toolUses ∧
    st'.summary = st.summary ∧ st'.model = st.model := by
  unfold stepFirstUser at h
  split at h
  · cases ht : userMsgText (e.getT "message") with
    | error err => rw [ht] at h; cases h
    | ok t => rw [ht] at h; cases h; simp
  · cases h; simp

theorem stepSummary_preserves (st : AggState) (e : Json) :
    (stepSummary st e).totalInputTokens = st.totalInputTokens ∧
    (stepSummary st e).totalOutputTokens = st.totalOutputTokens ∧
    (stepSummary st e).messageCount = st.messageCount ∧
    (stepSummary st e).toolUses = st.toolUses ∧
    (stepSummary st e).firstUserMessage = st.firstUserMessage ∧
    (stepSummary st e).model = st.model := by
  unfold stepSummary
  split <;> simp

theorem stepTools_preserves (st st' : AggState) (e : Json)
    (h : stepTools st e = .ok st') :
    st'.totalInputTokens = st.totalInputTokens ∧
    st'.totalOutputTokens = st.totalOutputTokens ∧
    st'.messageCount = st.messageCount ∧
    st'.firstUserMessage = st.firstUserMessage ∧
    st'.summary = st.summary ∧ st'.model = st.model := by
  unfold stepTools at h
  dsimp only at h
  split at h
  · split at h
    · split at h
      · exact Except.noConfusion h
      · cases h; simp
    · cases h; simp
  · cases h; simp

theorem stepModel_preserves (st : AggState) (e : Json) :
    (stepModel st e).totalInputTokens = st.totalInputTokens ∧
    (stepModel st e).totalOutputTokens = st.totalOutputTokens ∧
    (stepModel st e).messageCount = st.messageCount ∧
    (stepModel st e).toolUses = st.toolUses ∧
    (stepModel st e).firstUserMessage = st.firstUserMessage ∧
    (stepModel st e).summary = st.summary := by
  unfold stepModel
  split <;> simp

/-- Decomposition of one successful aggregation step into its
sub-steps. -/
theorem extractStep_ok (st st' : AggState) (e : Json)
    (h : extractStep st e = .ok st') :
    ∃ st1 st3 st5,
      stepTokens st e = .ok st1 ∧
      stepFirstUser (stepCount st1 e) e = .ok st3 ∧
      stepTools (stepSummary st3 e) e = .ok st5 ∧
      st' = stepModel st5 e := by
  unfold extractStep at h
  split at h
  next err heq => exact Except.noConfusion h
  next st1 h1 =>
    split at h
    next err heq => exact Except.noConfusion h
    next st3 h3 =>
      split at h
      next err heq => exact Except.noConfusion h
      next st5 h5 =>
        cases h
        exact ⟨st1, st3, st5, h1, h3, h5, rfl⟩

theorem extractSessionInfo_tokens (entries : List Json) (p f : String)
    (info : SessionInfo) (h : extractSessionInfo entries p f = .ok info) :
    info.totalTokens = info.totalInputTokens + info.totalOutputTokens := by
  unfold extractSessionInfo at h
  split at h
  next err heq => exact Except.noConfusion h
  next st heq =>
    cases h
    rfl

theorem sessionOfFile_tokenInv (c p : String) (f : FsFile) (s : SessionFull)
    (h : sessionOfFile c p f = .ok s) : tokenInv s := by
  unfold sessionOfFile at h
  split at h
  next err heq => exact Except.noConfusion h
  next info heq =>
    cases h
    exact extractSessionInfo_tokens _ _ _ _ heq

theorem filesStep_tokenInv (c p : String) (acc acc' : List SessionFull) (f : FsFile)
    (h : filesStep c p acc f = .ok acc') (hacc : ∀ s ∈ acc, tokenInv s) :
    ∀ s ∈ acc', tokenInv s := by
  unfold filesStep at h
  split at h
  · split at h
    next err heq => exact Except.noConfusion h
    next s0 heq =>
      cases h
      intro s hs
      rcases List.mem_append.mp hs with h1 | h1
      · exact hacc s h1
      · rcases List.mem_singleton.mp h1 with rfl
        exact sessionOfFile_tokenInv _ _ _ _ heq
  · cases h
    exact hacc

theorem dirStep_tokenInv (c : String) (acc acc' : List SessionFull) (ent : FsEntry)
    (h : dirStep c acc ent = .ok acc') (hacc : ∀ s ∈ acc, tokenInv s) :
    ∀ s ∈ acc', tokenInv s := by
  unfold dirStep at h
  cases ent with
  | file f =>
    cases h
    exact hacc
  | dir name files =>
    exact exFoldl_invariant (fun l => ∀ s ∈ l, tokenInv s) _
      (fun b a b' hb => filesStep_tokenInv c name b b' a hb) files acc acc' h hacc

theorem getAllSessions_tokenInv (c : String) (root : Option (List FsEntry))
    (sessions : List SessionFull) (h : getAllSessions c root = .ok sessions) :
    ∀ s ∈ sessions, tokenInv s := by
  unfold getAllSessions at h
  cases root with
  | none =>
    cases h
    intro s hs
    cases hs
  | some entries =>
    simp only at h
    split at h
    next err heq => exact Except.noConfusion h
    next l heq =>
      cases h
      intro s hs
      exact exFoldl_invariant (fun l => ∀ s ∈ l, tokenInv s) _
        (fun b a b' hb => dirStep_tokenInv c b b' a hb) entries [] l heq
        (by intro x hx; cases hx) s ((sortSessions_mem s l).mp hs)

theorem foldl_token_sum :
    ∀ (l : List SessionFull), (∀ s ∈ l, tokenInv s) → ∀ (a b : Int),
      l.foldl (fun sum s => sum + s.totalTokens) (a + b) =
        l.foldl (fun sum s => sum + s.totalInputTokens) a +
        l.foldl (fun sum s => sum + s.totalOutputTokens) b
  | [], _, a, b => by simp
  | s :: ss, h, a, b => by
    have hs : tokenInv s := h s (List.mem_cons_self s ss)
    have hss : ∀ x ∈ ss, tokenInv x := fun x hx => h x (List.mem_cons_of_mem s hx)
    simp only [List.foldl_cons]
    have : a + b + s.totalTokens =
        (a + s.totalInputTokens) + (b + s.totalOutputTokens) := by
      rw [hs]; ring
    rw [this]
    exact foldl_token_sum ss hss _ _

/-- C1: for every decoded record sequence, the Session Summary built by
the aggregator satisfies `total_tokens = total_input_tokens +
total_output_tokens`, and the `/api/stats` aggregate satisfies the same
equation for its summed totals. -/
theorem claim_c1_token_totals :
    (∀ (entries : List Json) (p f : String) (info : SessionInfo),
      extractSessionInfo entries p f = .ok info →
      info.totalTokens = info.totalInputTokens + info.totalOutputTokens) ∧
    (∀ (c : String) (root : Option (List FsEntry)) (st : StatsAgg),
      apiStats c root = .ok st →
      st.totalTokens = st.totalInputTokens + st.totalOutputTokens) := by
  constructor
  · exact extractSessionInfo_tokens
  · intro c root st h
    unfold apiStats at h
    split at h
    next err heq => exact Except.noConfusion h
    next sessions heq =>
      cases h
      have hinv := getAllSessions_tokenInv c root sessions heq
      have := foldl_token_sum sessions hinv 0 0
      simpa using this

theorem claim_c1_token_totals_witness :
    c1info.totalTokens = c1info.totalInputTokens + c1info.totalOutputTokens ∧
    c1stats.totalTokens = c1stats.totalInputTokens + c1stats.totalOutputTokens :=
  ⟨claim_c1_token_totals.1 [c1entry] "p" "f.jsonl" c1info (by rfl),
   claim_c1_token_totals.2 "c" (some []) c1stats (by rfl)⟩

/-! ### C2: the Record Decoder on mixed valid/invalid lines -/

theorem map_filter_eq_filterMap {α β : Type} (f : α → β) (p : β → Bool) :
    ∀ xs : List α,
      (xs.map f).filter p =
        xs.filterMap (fun x => if p (f x) then some (f x) else none)
  | [] => rfl
  | x :: xs => by
    simp only [List.map_cons, List.filter_cons, List.filterMap_cons]
    split <;> simp [map_filter_eq_filterMap f p xs]

theorem filterMap_ext {α β : Type} (f g : α → Option β) :
    ∀ xs : List α, (∀ x ∈ xs, f x = g x) → xs.filterMap f = xs.filterMap g
  | [], _ => rfl
  | x :: xs, h => by
    simp only [List.filterMap_cons, h x (List.mem_cons_self x xs)]
    rw [filterMap_ext f g xs (fun y hy => h y (List.mem_cons_of_mem x hy))]

/-- C2 counterexample: the file text `"null\n5"` consists of two lines,
both non-blank and both syntactically valid JSON, yet the decoder
returns a single record: the parsed value `null` is discarded by the
truthiness filter. -/
theorem claim_c2_counterexample :
    jsSplitNl (jsTrim "null\x0a5") = ["null", "5"] ∧
    jsTrim "null" ≠ "" ∧ (Json.parse "null").isSome = true ∧
    jsTrim "5" ≠ "" ∧ (Json.parse "5").isSome = true ∧
    (parseJsonl "null\x0a5").length = 1 :=
  ⟨rfl, by decide, rfl, by decide, rfl, rfl⟩

/-- C2 (amended): for every file text, the decoder returns exactly the
records of the syntactically valid non-blank lines whose parsed value
is truthy, in original relative order. -/
theorem claim_c2_decoder_records (content : String) :
    parseJsonl content = specDecodedRecords content := by
  unfold parseJsonl specDecodedRecords
  rw [map_filter_eq_filterMap]
  apply filterMap_ext
  intro l _
  cases hp : Json.parse l with
  | none => simp [Json.truthy]
  | some v => simp

/-! ### C8: degradation of the query operations -/

/-- C8: `getAllSessions` returns an empty list (and no error) on a
missing or empty root, and `getSessionDetails` returns the explicit
not-found value (and no error) whenever the requested session file does
not resolve. -/
theorem claim_c8_queries_degrade :
    (∀ c : String, getAllSessions c none = .ok [] ∧ getAllSessions c (some []) = .ok []) ∧
    (∀ (root : Option (List FsEntry)) (p sid : String),
      findFile root p (sid ++ ".jsonl") = none →
      getSessionDetails root p sid = .ok none) := by
  constructor
  · intro c
    exact ⟨rfl, rfl⟩
  · intro root p sid h
    unfold getSessionDetails
    rw [h]

theorem claim_c8_queries_degrade_witness :
    getAllSessions "/c" none = .ok [] ∧
    getSessionDetails (some [FsEntry.dir "proj" []]) "proj" "missing" = .ok none :=
  ⟨(claim_c8_queries_degrade.1 "/c").1,
   claim_c8_queries_degrade.2 (some [FsEntry.dir "proj" []]) "proj" "missing" (by rfl)⟩

/-- C7: formatting a `tool_result` record whose result string has 600
characters yields the label followed by the first 500 characters and an
ellipsis marker; a 400-character result passes through unchanged with
no marker. -/
theorem claim_c7_tool_result_truncation :
    (∀ s : String, s.length = 600 →
      formatEntryContent (toolResultRecord s) =
        .ok (.str ("📤 Result: " ++ jsSubstring s 500 ++ "..."))) ∧
    (∀ s : String, s.length = 400 →
      formatEntryContent (toolResultRecord s) = .ok (.str ("📤 Result: " ++ s))) := by
  have key : ∀ s : String, s ≠ "" →
      formatEntryContent (toolResultRecord s) =
        .ok (.str ("📤 Result: " ++ jsSubstring s 500
          ++ (if s.length > 500 then "..." else ""))) := by
    intro s hs
    have ht : (Json.str s).truthy = true := by
      simp [Json.truthy, hs]
    unfold formatEntryContent toolResultRecord formatToolResult
    simp +decide [Json.getE, Json.getT, Json.lookupField, Json.isStrEq, jsOr, ht]
  constructor
  · intro s h
    have hs : s ≠ "" := by
      intro e
      rw [e] at h
      simp at h
    rw [key s hs, h]
    norm_num
  · intro s h
    have hs : s ≠ "" := by
      intro e
      rw [e] at h
      simp at h
    rw [key s hs, h]
    have : jsSubstring s 500 = s := by
      unfold jsSubstring
      have : s.data.length ≤ 500 := by
        have : s.data.length = 400 := h
        omega
      rw [List.take_of_length_le this]
    rw [this]
    norm_num

theorem claim_c7_tool_result_truncation_witness :
    formatEntryContent (toolResultRecord c7res600) =
      .ok (.str ("📤 Result: " ++ jsSubstring c7res600 500 ++ "...")) ∧
    formatEntryContent (toolResultRecord c7res400) =
      .ok (.str ("📤 Result: " ++ c7res400)) :=
  ⟨claim_c7_tool_result_truncation.1 c7res600
     (by show (List.replicate 600 'a').length = 600; rw [List.length_replicate]),
   claim_c7_tool_result_truncation.2 c7res400
     (by show (List.replicate 400 'b').length = 400; rw [List.length_replicate])⟩

/-- C4: the line decodes to a record on which `formatEntryContent`
raises (models the `TypeError` from `c.type` with `c === null`),
contradicting the never-raises claim. -/
theorem claim_c4_formatter_raises :
    parseJsonl "\x7b\"type\":\"user\",\"message\":\x7b\"content\":[null]\x7d\x7d"
      = [c4record] ∧
    formatEntryContent c4record = .error () := by
  constructor
  · rfl
  · rfl

/-! ### C3: token-usage precedence -/

theorem Json.getE_ok (j : Json) (k : String) (v : Json) (h : j.getE k = .ok v) :
    v = j.getT k := by
  unfold Json.getE at h
  cases j <;> first
    | exact Except.noConfusion h
    | (cases h; rfl)

theorem stepTokens_tokens (st st' : AggState) (e : Json)
    (h : stepTokens st e = .ok st') :
    st'.totalInputTokens = st.totalInputTokens + usageInputTokens (usageOf e) ∧
    st'.totalOutputTokens = st.totalOutputTokens + usageOutputTokens (usageOf e) := by
  unfold stepTokens at h
  cases hu : e.getE "usage" with
  | error err => rw [hu] at h; exact Except.noConfusion h
  | ok u =>
    rw [hu] at h
    cases h
    have hv : u = e.getT "usage" := Json.getE_ok e "usage" u hu
    subst hv
    unfold usageOf usageInputTokens usageOutputTokens
    split
    next htr => simp [htr]; ring
    next htr => simp [htr]

/-- C3: every aggregation step adds exactly the tokens of
`entry.usage || entry.message?.usage` — `record.usage` wins whenever it
is truthy (so the two objects are never both counted) and
`record.message.usage` is read only otherwise — with the two cache
counts folded into the input total. -/
theorem claim_c3_usage_precedence (st st' : AggState) (e : Json)
    (h : extractStep st e = .ok st') :
    st'.totalInputTokens = st.totalInputTokens + usageInputTokens (usageOf e) ∧
    st'.totalOutputTokens = st.totalOutputTokens + usageOutputTokens (usageOf e) ∧
    ((e.getT "usage").truthy = true → usageOf e = e.getT "usage") ∧
    ((e.getT "usage").truthy = false →
      usageOf e = (e.getT "message").getC "usage") := by
  obtain ⟨st1, st3, st5, h1, h3, h5, hm⟩ := extractStep_ok st st' e h
  obtain ⟨hi, ho⟩ := stepTokens_tokens st st1 e h1
  obtain ⟨hci, hco, -, -, -, -⟩ := stepCount_preserves st1 e
  obtain ⟨hfi, hfo, -, -, -, -⟩ := stepFirstUser_preserves (stepCount st1 e) st3 e h3
  obtain ⟨hsi, hso, -, -, -, -⟩ := stepSummary_preserves st3 e
  obtain ⟨hti, hto, -, -, -, -⟩ := stepTools_preserves (stepSummary st3 e) st5 e h5
  obtain ⟨hmi, hmo, -, -, -, -⟩ := stepModel_preserves st5 e
  refine ⟨?_, ?_, ?_, ?_⟩
  · rw [hm, hmi, hti, hsi, hfi, hci, hi]
  · rw [hm, hmo, hto, hso, hfo, hco, ho]
  · intro htr
    unfold usageOf jsOr
    rw [htr]
    simp
  · intro htr
    unfold usageOf jsOr
    rw [htr]
    simp

theorem claim_c3_usage_precedence_witness :
    c3state.totalInputTokens = initAgg.totalInputTokens + usageInputTokens (usageOf c3record) ∧
    c3state.totalOutputTokens = initAgg.totalOutputTokens + usageOutputTokens (usageOf c3record) ∧
    ((c3record.getT "usage").truthy = true → usageOf c3record = c3record.getT "usage") ∧
    ((c3record.getT "usage").truthy = false →
      usageOf c3record = (c3record.getT "message").getC "usage") :=
  claim_c3_usage_precedence initAgg c3state c3record (by rfl)

/-- C5: the published summary is the captured summary text whenever one
was seen, else the first user message, else the literal fallback; a
session with user message "hello" yields "hello", and the same session
plus a summary record "S" yields "S". -/
theorem claim_c5_summary_precedence :
    (∀ (entries : List Json) (p f : String) (st : AggState) (info : SessionInfo),
      extractLoop entries = .ok st → extractSessionInfo entries p f = .ok info →
      (st.summary ≠ "" → info.summary = st.summary) ∧
      (st.summary = "" → st.firstUserMessage ≠ "" → info.summary = st.firstUserMessage) ∧
      (st.summary = "" → st.firstUserMessage = "" → info.summary = "No summary")) ∧
    (extractSessionInfo [c5userHello] "p" "f.jsonl").map SessionInfo.summary = .ok "hello" ∧
    (extractSessionInfo [c5userHello, c5summaryS] "p" "f.jsonl").map SessionInfo.summary
      = .ok "S" := by
  refine ⟨?_, by rfl, by rfl⟩
  intro entries p f st info hl hinfo
  unfold extractSessionInfo at hinfo
  rw [hl] at hinfo
  cases hinfo
  unfold finalizeInfo strOr
  refine ⟨fun hs => ?_, fun hs hf => ?_, fun hs hf => ?_⟩
  · simp [hs]
  · simp [hs, hf]
  · simp [hs, hf]

theorem claim_c5_summary_precedence_witness : c5info.summary = c5state.summary :=
  (claim_c5_summary_precedence.1 [c5userHello, c5summaryS] "p" "f.jsonl" c5state c5info
    (by rfl) (by rfl)).1 (by decide)

/-! ### C10: the last truthy summary record wins -/

theorem extractStep_summary (st st' : AggState) (e : Json)
    (h : extractStep st e = .ok st') :
    st'.summary =
      if (e.getT "type").isStrEq "summary" && (e.getT "summary").truthy
      then summaryTextOf (e.getT "summary") else st.summary := by
  obtain ⟨st1, st3, st5, h1, h3, h5, hm⟩ := extractStep_ok st st' e h
  obtain ⟨-, -, -, hs1, -⟩ := stepTokens_preserves st st1 e h1
  obtain ⟨-, -, -, -, hs2, -⟩ := stepCount_preserves st1 e
  obtain ⟨-, -, -, -, hs3, -⟩ := stepFirstUser_preserves (stepCount st1 e) st3 e h3
  obtain ⟨-, -, -, -, hs5, -⟩ := stepTools_preserves (stepSummary st3 e) st5 e h5
  obtain ⟨-, -, -, -, -, hsm⟩ := stepModel_preserves st5 e
  rw [hm, hsm, hs5]
  unfold stepSummary
  split
  next hc => simp [hc, hs3, hs2, hs1]
  next hc => rw [hs3, hs2, hs1]

theorem extractLoop_summary_aux :
    ∀ (entries : List Json) (st0 st : AggState),
      exFoldl extractStep st0 entries = .ok st →
      st.summary = entries.foldl (fun acc e =>
        if (e.getT "type").isStrEq "summary" && (e.getT "summary").truthy
        then summaryTextOf (e.getT "summary") else acc) st0.summary
  | [], st0, st, h => by
    unfold exFoldl at h
    cases h
    rfl
  | e :: es, st0, st, h => by
    unfold exFoldl at h
    cases h1 : extractStep st0 e with
    | error err => rw [h1] at h; exact Except.noConfusion h
    | ok st1 =>
      rw [h1] at h
      have := extractLoop_summary_aux es st1 st h
      rw [List.foldl_cons, this, extractStep_summary st0 st1 e h1]

/-- C10: after aggregation, the held summary text is the one derived
from the last summary-type record with a truthy `summary` field; a
summary record whose `summary` is absent or falsy leaves the previous
value unchanged. -/
theorem claim_c10_last_summary_wins (entries : List Json) (st : AggState)
    (h : extractLoop entries = .ok st) : st.summary = specLastSummary entries :=
  extractLoop_summary_aux entries initAgg st h

theorem claim_c10_last_summary_wins_witness :
    c10state.summary = specLastSummary c10entries :=
  claim_c10_last_summary_wins c10entries c10state (by rfl)

theorem insertNew_nodup (l : List Json) (n : Json) (h : l.Nodup) :
    (insertNew l n).Nodup := by
  unfold insertNew
  split
  · exact h
  next hc =>
    have hn : n ∉ l := by
      intro hm
      exact hc (List.any_eq_true.mpr ⟨n, hm, (jsonEqb_iff n n).mpr rfl⟩)
    rw [List.nodup_append]
    refine ⟨h, List.nodup_singleton n, ?_⟩
    intro x hx hx1
    rcases List.mem_singleton.mp hx1 with rfl
    exact hn hx

theorem foldl_insertNew_nodup :
    ∀ (ns l : List Json), l.Nodup → (ns.foldl insertNew l).Nodup
  | [], l, h => h
  | n :: ns, l, h => by
    rw [List.foldl_cons]
    exact foldl_insertNew_nodup ns (insertNew l n) (insertNew_nodup l n h)

theorem blockFold_toolNames :
    ∀ (blocks acc' : List Json) (acc : List Json),
      exFoldl (fun acc block =>
        match block.getE "type" with
        | .error e => .error e
        | .ok bt =>
          .ok (if bt.isStrEq "tool_use" && (block.getT "name").truthy then
                 insertNew acc (block.getT "name")
               else acc)) acc blocks = .ok acc' →
      ∃ bns, blockToolNames blocks = .ok bns ∧ acc' = bns.foldl insertNew acc
  | [], acc', acc, h => by
    unfold exFoldl at h
    cases h
    exact ⟨[], rfl, rfl⟩
  | b :: bs, acc', acc, h => by
    unfold exFoldl at h
    cases hbt : b.getE "type" with
    | error er =>
      rw [hbt] at h
      exact Except.noConfusion h
    | ok bt =>
      rw [hbt] at h
      simp only at h
      obtain ⟨bns, hbns, hacc⟩ := blockFold_toolNames bs acc' _ h
      unfold blockToolNames
      rw [hbt, hbns]
      refine ⟨_, rfl, ?_⟩
      split
      next hc => simpa [List.foldl_cons, hc] using hacc
      next hc => simpa [hc] using hacc

theorem stepTools_toolUses (st st' : AggState) (e : Json)
    (h : stepTools st e = .ok st') :
    ∃ ns, entryToolNames e = .ok ns ∧ st'.toolUses = ns.foldl insertNew st.toolUses := by
  have hfoldbase :
      (if (e.getT "type").isStrEq "tool_use" || (e.getT "tool").truthy then
          [jsOr (jsOr (e.getT "tool") (e.getT "name")) (.str "unknown")]
        else []).foldl insertNew st.toolUses =
      (if (e.getT "type").isStrEq "tool_use" || (e.getT "tool").truthy then
          insertNew st.toolUses (jsOr (jsOr (e.getT "tool") (e.getT "name")) (.str "unknown"))
        else st.toolUses) := by
    cases hc : (e.getT "type").isStrEq "tool_use" || (e.getT "tool").truthy <;> simp
  unfold stepTools at h
  dsimp only at h
  unfold entryToolNames
  dsimp only
  split at h
  next hA =>
    rw [if_pos hA]
    have hiA : ((e.getT "message").getC "content").isArr = true :=
      (Bool.and_eq_true _ _ |>.mp hA).2
    obtain ⟨blocks, hmc⟩ : ∃ blocks, (e.getT "message").getC "content" = .arr blocks := by
      cases hmcc : (e.getT "message").getC "content" <;>
        simp_all [Json.isArr]
    rw [hmc] at h ⊢
    dsimp only at h ⊢
    split at h
    next er hf => exact Except.noConfusion h
    next tu' hf =>
      cases h
      obtain ⟨bns, hbns, hacc⟩ := blockFold_toolNames blocks tu' _ hf
      rw [hbns]
      refine ⟨_, rfl, ?_⟩
      show tu' = _
      rw [List.foldl_append, hfoldbase, hacc]
  next hA =>
    rw [if_neg (by simp [hA])]
    cases h
    refine ⟨_, rfl, ?_⟩
    show (if _ then insertNew st.toolUses _ else st.toolUses) = _
    rw [hfoldbase]

theorem extractStep_tools (st st' : AggState) (e : Json)
    (h : extractStep st e = .ok st') :
    ∃ ns, entryToolNames e = .ok ns ∧ st'.toolUses = ns.foldl insertNew st.toolUses := by
  obtain ⟨st1, st3, st5, h1, h3, h5, hm⟩ := extractStep_ok st st' e h
  obtain ⟨-, ht1, -, -, -⟩ := stepTokens_preserves st st1 e h1
  obtain ⟨-, -, ht2, -, -, -⟩ := stepCount_preserves st1 e
  obtain ⟨-, -, -, ht3, -, -⟩ := stepFirstUser_preserves (stepCount st1 e) st3 e h3
  obtain ⟨-, -, -, ht4, -, -⟩ := stepSummary_preserves st3 e
  obtain ⟨-, -, -, htm, -, -⟩ := stepModel_preserves st5 e
  obtain ⟨ns, hns, htu⟩ := stepTools_toolUses (stepSummary st3 e) st5 e h5
  refine ⟨ns, hns, ?_⟩
  rw [hm, htm, htu, ht4, ht3, ht2, ht1]

theorem extractLoop_tools_aux :
    ∀ (entries : List Json) (st0 st : AggState),
      exFoldl extractStep st0 entries = .ok st →
      ∃ ns, allToolNames entries = .ok ns ∧
        st.toolUses = ns.foldl insertNew st0.toolUses
  | [], st0, st, h => by
    unfold exFoldl at h
    cases h
    exact ⟨[], rfl, rfl⟩
  | e :: es, st0, st, h => by
    unfold exFoldl at h
    cases h1 : extractStep st0 e with
    | error err => rw [h1] at h; exact Except.noConfusion h
    | ok st1 =>
      rw [h1] at h
      obtain ⟨ns, hns, htu⟩ := extractStep_tools st0 st1 e h1
      obtain ⟨rest, hrest, hres⟩ := extractLoop_tools_aux es st1 st h
      unfold allToolNames
      rw [hns, hrest]
      exact ⟨ns ++ rest, rfl, by rw [List.foldl_append, ← htu, hres]⟩

/-- C6: the aggregated tool-name list never holds duplicates and equals
the first-occurrence deduplication of the contributed name sequence
(record order); the contributed sequence grep, read, grep, write yields
the list grep, read, write. -/
theorem claim_c6_tool_list :
    (∀ (entries : List Json) (st : AggState), extractLoop entries = .ok st →
      st.toolUses.Nodup ∧
      ∃ ns, allToolNames entries = .ok ns ∧ st.toolUses = dedupFirstSeen ns) ∧
    (extractLoop c6entries).map AggState.toolUses =
      .ok [.str "grep", .str "read", .str "write"] ∧
    allToolNames c6entries =
      .ok [.str "grep", .str "read", .str "grep", .str "write"] := by
  refine ⟨?_, by rfl, by rfl⟩
  intro entries st h
  obtain ⟨ns, hns, htu⟩ := extractLoop_tools_aux entries initAgg st h
  refine ⟨?_, ns, hns, htu⟩
  rw [htu]
  exact foldl_insertNew_nodup ns [] List.nodup_nil

theorem claim_c6_tool_list_witness :
    c6state.toolUses.Nodup ∧
    ∃ ns, allToolNames c6entries = .ok ns ∧ c6state.toolUses = dedupFirstSeen ns :=
  claim_c6_tool_list.1 c6entries c6state (by rfl)

/-- C9 counterexample: the first record of type `user` formats (by the
claim's own rules: array content filtered to text blocks, joined,
truncated) to the empty string, yet the captured first user message is
the one of the second user record — the capture is not "once, from the
first record of type user". -/
theorem claim_c9_counterexample :
    (c9user1.getT "type").isStrEq "user" = true ∧
    userMsgText (c9user1.getT "message") = .ok "" ∧
    (extractLoop [c9user1, c9user2]).map AggState.firstUserMessage = .ok "hi" ∧
    "hi" ≠ ("" : String) :=
  ⟨rfl, rfl, rfl, by decide⟩

theorem extractStep_firstUser (st st' : AggState) (e : Json)
    (h : extractStep st e = .ok st') :
    (((e.getT "type").isStrEq "user" && st.firstUserMessage == ""
        && (e.getT "message").truthy) = true →
      ∃ t, userMsgText (e.getT "message") = .ok t ∧
        st'.firstUserMessage = jsSubstring t 200) ∧
    (((e.getT "type").isStrEq "user" && st.firstUserMessage == ""
        && (e.getT "message").truthy) = false →
      st'.firstUserMessage = st.firstUserMessage) := by
  obtain ⟨st1, st3, st5, h1, h3, h5, hm⟩ := extractStep_ok st st' e h
  obtain ⟨-, -, hf1, -, -⟩ := stepTokens_preserves st st1 e h1
  obtain ⟨-, -, -, hf2, -, -⟩ := stepCount_preserves st1 e
  obtain ⟨-, -, -, -, hf4, -⟩ := stepSummary_preserves st3 e
  obtain ⟨-, -, -, hf5, -, -⟩ := stepTools_preserves (stepSummary st3 e) st5 e h5
  obtain ⟨-, -, -, -, hfm, -⟩ := stepModel_preserves st5 e
  have hsame : (stepCount st1 e).firstUserMessage = st.firstUserMessage := by
    rw [hf2, hf1]
  have hout : st'.firstUserMessage = st3.firstUserMessage := by
    rw [hm, hfm, hf5, hf4]
  unfold stepFirstUser at h3
  rw [hsame] at h3
  split at h3
  next hg =>
    refine ⟨fun _ => ?_, fun hgf => ?_⟩
    · cases ht : userMsgText (e.getT "message") with
      | error er => rw [ht] at h3; exact Except.noConfusion h3
      | ok t =>
        rw [ht] at h3
        cases h3
        exact ⟨t, rfl, by rw [hout]⟩
    · rw [hg] at hgf
      exact Bool.noConfusion hgf
  next hg =>
    refine ⟨fun hgt => ?_, fun _ => ?_⟩
    · rw [hgt] at hg
      exact absurd rfl hg
    · cases h3
      rw [hout, hsame]

theorem extractLoop_firstUser_aux :
    ∀ (entries : List Json) (st0 st : AggState),
      exFoldl extractStep st0 entries = .ok st →
      (st0.firstUserMessage ≠ "" → st.firstUserMessage = st0.firstUserMessage) ∧
      (st0.firstUserMessage = "" →
        specFirstUserMessage entries = .ok st.firstUserMessage)
  | [], st0, st, h => by
    unfold exFoldl at h
    cases h
    exact ⟨fun _ => rfl, fun h0 => by unfold specFirstUserMessage; rw [h0]⟩
  | e :: es, st0, st, h => by
    unfold exFoldl at h
    cases h1 : extractStep st0 e with
    | error err => rw [h1] at h; exact Except.noConfusion h
    | ok st1 =>
      rw [h1] at h
      have step := extractStep_firstUser st0 st1 e h1
      have IH := extractLoop_firstUser_aux es st1 st h
      constructor
      · intro h0
        have hb : (st0.firstUserMessage == "") = false := by
          simp [h0]
        have hgf : ((e.getT "type").isStrEq "user" && st0.firstUserMessage == ""
            && (e.getT "message").truthy) = false := by
          rw [hb]
          simp
        have h10 : st1.firstUserMessage = st0.firstUserMessage := step.2 hgf
        rw [IH.1 (by rw [h10]; exact h0), h10]
      · intro h0
        unfold specFirstUserMessage
        by_cases hg0 : ((e.getT "type").isStrEq "user" && (e.getT "message").truthy) = true
        · rw [if_pos hg0]
          have hgf : ((e.getT "type").isStrEq "user" && st0.firstUserMessage == ""
              && (e.getT "message").truthy) = true := by
            rw [h0]
            revert hg0
            cases (e.getT "type").isStrEq "user" <;>
              cases (e.getT "message").truthy <;> simp
          obtain ⟨t, hts, hst1⟩ := step.1 hgf
          rw [hts]
          dsimp only
          by_cases hte : jsSubstring t 200 = ""
          · rw [if_pos hte]
            exact IH.2 (by rw [hst1, hte])
          · rw [if_neg hte]
            rw [IH.1 (by rw [hst1]; exact hte), hst1]
        · rw [if_neg hg0]
          have hgf : ((e.getT "type").isStrEq "user" && st0.firstUserMessage == ""
              && (e.getT "message").truthy) = false := by
            revert hg0
            cases (e.getT "type").isStrEq "user" <;>
              cases (e.getT "message").truthy <;> simp
          exact IH.2 (by rw [step.2 hgf]; exact h0)

/-- C9 (amended): after aggregation, the held first-user-message text
is exactly the one `specFirstUserMessage` describes — supplied by the
first user record with a truthy message and non-empty truncated text,
not necessarily by the first record of type user. -/
theorem claim_c9_first_user_message (entries : List Json) (st : AggState)
    (h : extractLoop entries = .ok st) :
    specFirstUserMessage entries = .ok st.firstUserMessage :=
  (extractLoop_firstUser_aux entries initAgg st h).2 rfl

theorem claim_c9_first_user_message_witness :
    specFirstUserMessage [c9user1, c9user2] = .ok c9state.firstUserMessage :=
  claim_c9_first_user_message [c9user1, c9user2] c9state (by rfl)
